import Mathlib

/-!
Verification of the monitor subscription core of oxen-storage-server
(src/oxenss/server/omq_monitor.cpp), shallowly embedded in Lean.

Modelling conventions:
* `namespace_id` (a C++ int16 enum with integer ordering) is modelled as `Int`.
* account keys, oxenmq connection ids and quic connection handles are
  modelled as `Nat` (only equality of these values is ever used by the code).
* the `monitoring_` multimap is modelled as an association list
  `List (Nat × MonData)`; `equal_range` becomes a key filter that keeps the
  relative order of entries, and `emplace` appends at the end.
* byte strings in the wire-format section are modelled as `List Char`.
-/

namespace OxenSS

/-- Embedding of the containment test loop of `merge_namespaces`
(the `ita`/`itb` walk; the result is whether `itb` reached `b.end()`). -/
def subset_check : List Int → List Int → Bool
  | _, [] => true
  | [], _ :: _ => false
  | x :: xs, y :: ys =>
    if x < y then subset_check xs (y :: ys)
    else if y = x then subset_check xs ys
    else false

/-- Embedding of the final merge loop of `merge_namespaces` (building vector `c`). -/
def merge_pass : List Int → List Int → List Int
  | xs, [] => xs
  | [], y :: ys => y :: ys
  | x :: xs, y :: ys =>
    if x < y then x :: merge_pass xs (y :: ys)
    else if x = y then x :: merge_pass xs ys
    else y :: merge_pass (x :: xs) ys

/-- Embedding of the initial argument swap of `merge_namespaces`: if `b` is
nonempty and either `a` is empty or `b.front() < a.front()`, the arguments
are swapped. -/
def merge_swap : List Int → List Int → List Int × List Int
  | a, [] => (a, [])
  | [], y :: ys => (y :: ys, [])
  | x :: xs, y :: ys => if y < x then (y :: ys, x :: xs) else (x :: xs, y :: ys)

/-- Embedding of `merge_namespaces` (omq_monitor.cpp lines 27-66): swap so the
candidate superset comes first, return the first component if the containment
walk consumed all of the second, otherwise run the merge loop. -/
def merge_namespaces (a b : List Int) : List Int :=
  let p := merge_swap a b
  if subset_check p.1 p.2 then p.1 else merge_pass p.1 p.2

/-- The per-request data produced by the request codec: the C++ `sub_info`
tuple `(pubkey, pubkey_hex, namespaces, want_data)`. -/
structure SubInfo where
  pubkey : Nat
  pubkey_hex : String
  namespaces : List Int
  want_data : Bool
deriving Repr, DecidableEq

/-- A registered monitor entry (the C++ `monitor_data` struct, whose fields
are read and written by omq_monitor.cpp: `namespaces`, `want_data`,
`push_conn`, `quic`, `expiry`). -/
structure MonData where
  namespaces : List Int
  want_data : Bool
  push_conn : Option Nat
  quic : Option Nat
  expiry : Nat
deriving Repr, DecidableEq

/-- The `monitoring_` multimap, as an association list keeping insertion
order within a key. -/
abbrev Registry := List (Nat × MonData)

/-- The transport-identity test of `update_monitors` (line 79):
`(omq and mon_data.push_conn == omq) || (quic and mon_data.quic == quic)`. -/
def transport_match (omq quic : Option Nat) (m : MonData) : Bool :=
  (omq.isSome && m.push_conn == omq) || (quic.isSome && m.quic == quic)

/-- The renewal of a matched entry in `update_monitors` (lines 80-93): merge
the namespaces, reset the expiry, OR the want_data flag, and backfill an
absent transport handle.  `reset_expiry` is modelled from the spec:
the expiry becomes the renewal time plus a fixed TTL. -/
def renew (now ttl : Nat) (omq quic : Option Nat) (s : SubInfo) (m : MonData) : MonData :=
  { namespaces := merge_namespaces m.namespaces s.namespaces
    want_data := m.want_data || s.want_data
    push_conn := if omq.isSome && m.push_conn.isNone then omq else m.push_conn
    quic := if quic.isSome && m.quic.isNone then quic else m.quic
    expiry := now + ttl }

/-- A freshly inserted entry (`monitoring_.emplace`, lines 103-106).  The
constructor of `monitor_data` is not under src/; its expiry initialisation is
modelled from the spec (insertion time plus the fixed TTL). -/
def new_entry (now ttl : Nat) (omq quic : Option Nat) (s : SubInfo) : MonData :=
  { namespaces := s.namespaces
    want_data := s.want_data
    push_conn := omq
    quic := quic
    expiry := now + ttl }

/-- The inner loop of `update_monitors` for one request: walk the entries in
order; the first one with the right key and a matching transport is renewed in
place and the walk stops (`break`).  Returns `none` when no entry matched. -/
def find_renew (now ttl : Nat) (omq quic : Option Nat) (s : SubInfo) :
    Registry → Option Registry
  | [] => none
  | (k, m) :: rest =>
    if k == s.pubkey && transport_match omq quic m then
      some ((k, renew now ttl omq quic s m) :: rest)
    else
      match find_renew now ttl omq quic s rest with
      | some rest2 => some ((k, m) :: rest2)
      | none => none

/-- One iteration of the `for (auto& ... : subs)` loop of `update_monitors`:
renew the matching entry if one exists, otherwise emplace a new one. -/
def update_one (now ttl : Nat) (omq quic : Option Nat) (reg : Registry) (s : SubInfo) :
    Registry :=
  match find_renew now ttl omq quic s reg with
  | some reg2 => reg2
  | none => reg ++ [(s.pubkey, new_entry now ttl omq quic s)]

/-- Embedding of `OMQ::update_monitors` (lines 70-109): the whole batch is
processed in order under one exclusive lock. -/
def update_monitors (now ttl : Nat) (omq quic : Option Nat) (reg : Registry)
    (subs : List SubInfo) : Registry :=
  subs.foldl (update_one now ttl omq quic) reg

/-- Embedding of `std::binary_search` over the namespace vector of an entry: the
standard-library postcondition on the sorted ranges stored in the registry
(the `MonitorEntry` invariant) is exactly membership, which is how this
external collaborator is modelled. -/
def binary_search (l : List Int) (x : Int) : Bool :=
  l.contains x

/-- The selection test of `send_notifies` (lines 168-170):
`mon_data.expiry >= now && std::binary_search(...)`. -/
def selected (ns : Int) (now : Nat) (m : MonData) : Bool :=
  decide (now ≤ m.expiry) && binary_search m.namespaces ns

/-- One step of the `send_notifies` scan (line 171): a selected entry is
dispatched through `*mon_data.push_conn` with no check that the optional is
engaged — dereferencing an absent handle is a fault, modelled as `none`. -/
def lookup_step (ns : Int) (now : Nat) (acc : Option (List Nat × List Nat))
    (m : MonData) : Option (List Nat × List Nat) :=
  match acc with
  | none => none
  | some (md, wd) =>
    if selected ns now m then
      match m.push_conn with
      | none => none
      | some c => if m.want_data then some (md, wd ++ [c]) else some (md ++ [c], wd)
    else some (md, wd)

/-- `monitoring_.equal_range(pubkey)`, as a key filter keeping entry order. -/
def mon_entries (reg : Registry) (pk : Nat) : List MonData :=
  (reg.filter (fun e => e.1 == pk)).map (fun e => e.2)

/-- Embedding of the lookup phase of `OMQ::send_notifies` (lines 160-173):
partition the live, namespace-matching entries for the account into the
metadata-only and with-data target lists. -/
def lookup_targets (reg : Registry) (pk : Nat) (ns : Int) (now : Nat) :
    Option (List Nat × List Nat) :=
  (mon_entries reg pk).foldl (lookup_step ns now) (some ([], []))

/-- The reply of `handle_monitor_messages`: either the bt-serialized
`(errcode = BAD_ARGS, error)` dict or the mirrored success result. -/
inductive MonReply where
  | badArgs (error : String)
  | success (result : String)
deriving Repr, DecidableEq

/-- Embedding of `OMQ::handle_monitor_messages` (lines 111-149).  Modelled
from the spec: `handle_monitor_message_single` and the oxenc consumers are not
under src/, so the whole try block is abstracted as a parse function that
either returns the mirrored response string and the materialized subscription
batch, or fails (the thrown exception). -/
def handle_monitor_messages (parseReq : List Char → Except Unit (String × List SubInfo))
    (now ttl : Nat) (conn : Nat) (reg : Registry) (data : List (List Char)) :
    MonReply × Registry :=
  match data with
  | [m] =>
    if 2 ≤ m.length ∧ (m.head? = some 'd' ∨ m.head? = some 'l') ∧ m.getLast? = some 'e' then
      match parseReq m with
      | Except.error _ =>
        (MonReply.badArgs "Invalid arguments: Failed to parse monitor.messages data value", reg)
      | Except.ok (result, subs) =>
        (MonReply.success result,
         if subs.isEmpty then reg else update_monitors now ttl (some conn) none reg subs)
    else
      (MonReply.badArgs
        "Invalid arguments: monitor.messages takes a single bencoded dict or list parameter",
       reg)
  | _ =>
    (MonReply.badArgs
      "Invalid arguments: monitor.messages takes a single bencoded dict or list parameter",
     reg)

/-- An incoming message (the C++ `message` struct as used by
`send_notifies`/`write_metadata`); the timestamp and expiry fields are
modelled directly as the epoch-millisecond integers that `to_epoch_ms`
produces, and `to_int` of the namespace as the integer itself. -/
structure message where
  hash : List Char
  msg_namespace : Int
  timestamp : Int
  expiry : Int
  data : List Char

/-- Bencode byte-string encoding `<len>:<bytes>`, as written by
`bt_dict_producer::append` for string values (and keys). -/
def bt_encStr (s : List Char) : List Char :=
  (Nat.repr s.length).data ++ [':'] ++ s

/-- Bencode signed-integer encoding `i<n>e`. -/
def bt_encInt (n : Int) : List Char :=
  ['i'] ++ (toString n).data ++ ['e']

/-- The state of an `oxenc::bt_dict_producer`: the serialized key/value
pairs written so far (between the enclosing markers). -/
structure bt_dict_producer where
  buf : List Char

def bt_dict_producer.append_str (d : bt_dict_producer) (key val : List Char) :
    bt_dict_producer :=
  ⟨d.buf ++ bt_encStr key ++ bt_encStr val⟩

def bt_dict_producer.append_int (d : bt_dict_producer) (key : List Char) (n : Int) :
    bt_dict_producer :=
  ⟨d.buf ++ bt_encStr key ++ bt_encInt n⟩

/-- Embedding of `view()`: oxenc producers keep the closing marker in the
buffer, so the view is always the complete serialization `d ... e`. -/
def bt_dict_producer.view (d : bt_dict_producer) : List Char :=
  'd' :: d.buf ++ ['e']

/-- Embedding of `write_metadata` (lines 151-158): append `@`, `h`, `n`, `t`,
`z` in that order. -/
def write_metadata (d : bt_dict_producer) (pubkey : List Char) (msg : message) :
    bt_dict_producer :=
  ((((d.append_str ['@'] pubkey).append_str ['h'] msg.hash).append_int
      ['n'] msg.msg_namespace).append_int ['t'] msg.timestamp).append_int ['z'] msg.expiry

/-- The notification bytes sent to metadata-only targets (line 205). -/
def notify_metadata_payload (pubkey : List Char) (msg : message) : List Char :=
  (write_metadata ⟨[]⟩ pubkey msg).view

/-- The notification bytes sent to with-data targets: the same producer after
`d.append("~", msg.data)` (lines 208-210). -/
def notify_withdata_payload (pubkey : List Char) (msg : message) : List Char :=
  ((write_metadata ⟨[]⟩ pubkey msg).append_str ['~'] msg.data).view

/-- The handle-evolution relation of one `update_monitors` call: the
transport handle of each kind of an entry is either left unchanged or, when absent,
filled in from the handle of that kind supplied by the caller. -/
def HandleFrame (omq quic : Option Nat) (m m2 : MonData) : Prop :=
  (m2.push_conn = m.push_conn ∨
    (m.push_conn = none ∧ omq.isSome = true ∧ m2.push_conn = omq)) ∧
  (m2.quic = m.quic ∨
    (m.quic = none ∧ quic.isSome = true ∧ m2.quic = quic))

theorem merge_swap_eq (a b : List Int) :
    merge_swap a b = (a, b) ∨ merge_swap a b = (b, a) := by
  cases a with
  | nil =>
    cases b with
    | nil => left; rfl
    | cons y ys => right; rfl
  | cons x xs =>
    cases b with
    | nil => left; rfl
    | cons y ys =>
      by_cases h : y < x
      · right; simp [merge_swap, if_pos h]
      · left; simp [merge_swap, if_neg h]

theorem mem_merge_pass : ∀ (a b : List Int) (z : Int),
    z ∈ merge_pass a b ↔ z ∈ a ∨ z ∈ b := by
  intro a
  induction a with
  | nil =>
    intro b z
    cases b with
    | nil => simp [merge_pass]
    | cons y ys => simp [merge_pass]
  | cons x xs iha =>
    intro b
    induction b with
    | nil => intro z; simp [merge_pass]
    | cons y ys ihb =>
      intro z
      simp only [merge_pass]
      by_cases h1 : x < y
      · rw [if_pos h1]
        simp only [List.mem_cons, iha]
        tauto
      · rw [if_neg h1]
        by_cases h2 : x = y
        · rw [if_pos h2]
          subst h2
          simp only [List.mem_cons, iha]
          tauto
        · rw [if_neg h2]
          simp only [List.mem_cons] at ihb ⊢
          rw [ihb z]
          tauto

theorem sorted_merge_pass : ∀ (a b : List Int),
    a.Sorted (· < ·) → b.Sorted (· < ·) → (merge_pass a b).Sorted (· < ·) := by
  intro a
  induction a with
  | nil =>
    intro b ha hb
    cases b with
    | nil => simp [merge_pass]
    | cons y ys => simpa [merge_pass] using hb
  | cons x xs iha =>
    intro b
    induction b with
    | nil => intro ha hb; simpa [merge_pass] using ha
    | cons y ys ihb =>
      intro ha hb
      rw [List.sorted_cons] at ha hb
      simp only [merge_pass]
      by_cases h1 : x < y
      · rw [if_pos h1]
        rw [List.sorted_cons]
        refine ⟨?_, iha (y :: ys) ha.2 (List.sorted_cons.2 hb)⟩
        intro z hz
        rcases (mem_merge_pass xs (y :: ys) z).1 hz with h | h
        · exact ha.1 z h
        · rcases List.mem_cons.1 h with rfl | h
          · exact h1
          · exact h1.trans (hb.1 z h)
      · rw [if_neg h1]
        by_cases h2 : x = y
        · rw [if_pos h2]
          rw [List.sorted_cons]
          refine ⟨?_, iha ys ha.2 hb.2⟩
          intro z hz
          rcases (mem_merge_pass xs ys z).1 hz with h | h
          · exact ha.1 z h
          · rw [h2]; exact hb.1 z h
        · have hyx : y < x := by
            rcases lt_trichotomy x y with h | h | h
            · exact absurd h h1
            · exact absurd h h2
            · exact h
          rw [if_neg h2]
          rw [List.sorted_cons]
          refine ⟨?_, ihb (List.sorted_cons.2 ha) hb.2⟩
          intro z hz
          rcases (mem_merge_pass (x :: xs) ys z).1 hz with h | h
          · rcases List.mem_cons.1 h with rfl | h
            · exact hyx
            · exact hyx.trans (ha.1 z h)
          · exact hb.1 z h

theorem subset_check_iff : ∀ (a b : List Int),
    a.Sorted (· < ·) → b.Sorted (· < ·) →
    (subset_check a b = true ↔ ∀ z ∈ b, z ∈ a) := by
  intro a
  induction a with
  | nil =>
    intro b ha hb
    cases b with
    | nil => simp [subset_check]
    | cons y ys =>
      simp only [subset_check]
      constructor
      · intro h; cases h
      · intro h
        exact absurd (h y (List.mem_cons_self y ys)) (List.not_mem_nil y)
  | cons x xs iha =>
    intro b
    induction b with
    | nil =>
      intro ha hb
      simp [subset_check]
    | cons y ys ihb =>
      intro ha hb
      rw [List.sorted_cons] at ha hb
      simp only [subset_check]
      by_cases h1 : x < y
      · rw [if_pos h1]
        rw [iha (y :: ys) ha.2 (List.sorted_cons.2 hb)]
        constructor
        · intro h z hz
          exact List.mem_cons_of_mem x (h z hz)
        · intro h z hz
          have hyz : y ≤ z := by
            rcases List.mem_cons.1 hz with rfl | hz
            · exact le_refl z
            · exact le_of_lt (hb.1 z hz)
          rcases List.mem_cons.1 (h z hz) with rfl | hm
          · exact absurd (lt_of_lt_of_le h1 hyz) (lt_irrefl z)
          · exact hm
      · rw [if_neg h1]
        by_cases h2 : y = x
        · rw [if_pos h2]
          rw [iha ys ha.2 hb.2]
          constructor
          · intro h z hz
            rcases List.mem_cons.1 hz with rfl | hz
            · rw [h2]; exact List.mem_cons_self x xs
            · exact List.mem_cons_of_mem x (h z hz)
          · intro h z hz
            have hyz : y < z := hb.1 z hz
            rcases List.mem_cons.1 (h z (List.mem_cons_of_mem y hz)) with rfl | hm
            · exact absurd (h2 ▸ hyz) (lt_irrefl z)
            · exact hm
        · have hyx : y < x := by
            rcases lt_trichotomy x y with h | h | h
            · exact absurd h h1
            · exact absurd h.symm h2
            · exact h
          rw [if_neg h2]
          constructor
          · intro h; cases h
          · intro h
            rcases List.mem_cons.1 (h y (List.mem_cons_self y ys)) with rfl | hm
            · exact absurd hyx (lt_irrefl y)
            · exact absurd hyx (not_lt.2 (le_of_lt (ha.1 y hm)))

theorem mem_merge_core (a b : List Int)
    (ha : a.Sorted (· < ·)) (hb : b.Sorted (· < ·)) (z : Int) :
    z ∈ (if subset_check a b then a else merge_pass a b) ↔ z ∈ a ∨ z ∈ b := by
  by_cases h : subset_check a b = true
  · rw [if_pos h]
    have hsub := (subset_check_iff a b ha hb).1 h
    constructor
    · intro hz; exact Or.inl hz
    · intro hz; rcases hz with hz | hz
      · exact hz
      · exact hsub z hz
  · rw [if_neg h]
    exact mem_merge_pass a b z

theorem mem_merge_namespaces (a b : List Int)
    (ha : a.Sorted (· < ·)) (hb : b.Sorted (· < ·)) (z : Int) :
    z ∈ merge_namespaces a b ↔ z ∈ a ∨ z ∈ b := by
  unfold merge_namespaces
  rcases merge_swap_eq a b with h | h <;> rw [h]
  · exact mem_merge_core a b ha hb z
  · rw [mem_merge_core b a hb ha z]
    tauto

theorem sorted_merge_namespaces (a b : List Int)
    (ha : a.Sorted (· < ·)) (hb : b.Sorted (· < ·)) :
    (merge_namespaces a b).Sorted (· < ·) := by
  unfold merge_namespaces
  rcases merge_swap_eq a b with h | h <;> rw [h]
  · by_cases hc : subset_check a b = true
    · rw [if_pos hc]; exact ha
    · rw [if_neg hc]; exact sorted_merge_pass a b ha hb
  · by_cases hc : subset_check b a = true
    · rw [if_pos hc]; exact hb
    · rw [if_neg hc]; exact sorted_merge_pass b a hb ha

/-- Two strictly sorted integer lists with the same members are equal. -/
theorem sorted_lists_eq_of_mem_iff (a b : List Int)
    (ha : a.Sorted (· < ·)) (hb : b.Sorted (· < ·))
    (h : ∀ z : Int, z ∈ a ↔ z ∈ b) : a = b :=
  List.eq_of_perm_of_sorted
    ((List.perm_ext_iff_of_nodup ha.nodup hb.nodup).2 h) ha hb

theorem merge_swap_self (a : List Int) : merge_swap a a = (a, a) := by
  cases a with
  | nil => rfl
  | cons x xs => simp [merge_swap, lt_irrefl]

theorem subset_check_self : ∀ a : List Int, subset_check a a = true := by
  intro a
  induction a with
  | nil => rfl
  | cons x xs ih =>
    simp [subset_check, ih]

theorem merge_namespaces_self (a : List Int) : merge_namespaces a a = a := by
  unfold merge_namespaces
  rw [merge_swap_self]
  exact if_pos (subset_check_self a)

/-- C3: for sorted duplicate-free inputs, `merge_namespaces` returns a sorted
duplicate-free sequence whose member set is exactly the union of the inputs,
and when the member set of one input contains that of the other, the returned sequence
is exactly the superset sequence.  (Strict sortedness by `<` is precisely
"sorted and duplicate-free".) -/
theorem merge_namespaces_spec (a b : List Int)
    (ha : a.Sorted (· < ·)) (hb : b.Sorted (· < ·)) :
    (merge_namespaces a b).Sorted (· < ·) ∧
    (merge_namespaces a b).Nodup ∧
    (∀ z : Int, z ∈ merge_namespaces a b ↔ z ∈ a ∨ z ∈ b) ∧
    ((∀ z ∈ b, z ∈ a) → merge_namespaces a b = a) ∧
    ((∀ z ∈ a, z ∈ b) → merge_namespaces a b = b) := by
  have hs := sorted_merge_namespaces a b ha hb
  have hm := mem_merge_namespaces a b ha hb
  refine ⟨hs, hs.nodup, hm, ?_, ?_⟩
  · intro hsub
    refine sorted_lists_eq_of_mem_iff _ a hs ha ?_
    intro z
    rw [hm z]
    constructor
    · intro h; rcases h with h | h
      · exact h
      · exact hsub z h
    · intro h; exact Or.inl h
  · intro hsub
    refine sorted_lists_eq_of_mem_iff _ b hs hb ?_
    intro z
    rw [hm z]
    constructor
    · intro h; rcases h with h | h
      · exact hsub z h
      · exact h
    · intro h; exact Or.inr h

theorem merge_namespaces_spec_witness :
    List.Sorted (· < ·) [(1 : Int), 3] ∧ List.Sorted (· < ·) [(2 : Int), 3] ∧
    (merge_namespaces [1, 3] [2, 3]).Sorted (· < ·) ∧
    (merge_namespaces [1, 3] [2, 3]).Nodup ∧
    ((5 : Int) ∈ merge_namespaces [1, 3] [2, 3] ↔
      (5 : Int) ∈ [(1 : Int), 3] ∨ (5 : Int) ∈ [(2 : Int), 3]) := by
  have h1 : List.Sorted (· < ·) [(1 : Int), 3] := by decide
  have h2 : List.Sorted (· < ·) [(2 : Int), 3] := by decide
  have h := merge_namespaces_spec [1, 3] [2, 3] h1 h2
  exact ⟨h1, h2, h.1, h.2.1, h.2.2.1 5⟩

/-- C7: `merge_namespaces` is idempotent (`merge(a,a) = a`) and commutative
on sorted duplicate-free inputs. -/
theorem merge_namespaces_comm_idem (a b : List Int)
    (ha : a.Sorted (· < ·)) (hb : b.Sorted (· < ·)) :
    merge_namespaces a a = a ∧ merge_namespaces a b = merge_namespaces b a := by
  refine ⟨merge_namespaces_self a, ?_⟩
  refine sorted_lists_eq_of_mem_iff _ _
    (sorted_merge_namespaces a b ha hb) (sorted_merge_namespaces b a hb ha) ?_
  intro z
  rw [mem_merge_namespaces a b ha hb z, mem_merge_namespaces b a hb ha z]
  tauto

/-- C1: the spec requires an entry lacking the dispatch transport handle to be
excluded from dispatch without faulting, but the code dereferences
`*mon_data.push_conn` unconditionally for every selected entry: at this input
(one live entry for the account, matching namespace, `push_conn` absent,
`quic` present) the lookup faults instead of excluding the entry. -/
theorem lookup_targets_missing_handle_faults :
    lookup_targets [(0, ⟨[3], false, none, some 7, 10⟩)] 0 3 5 = none := by
  rfl

theorem lookup_fold (ns : Int) (now : Nat) :
    ∀ (l : List MonData) (amd awd : List Nat),
    (∀ m ∈ l, m.push_conn.isSome = true) →
    l.foldl (lookup_step ns now) (some (amd, awd)) =
      some (amd ++ l.filterMap
              (fun m => if selected ns now m && !m.want_data then m.push_conn else none),
            awd ++ l.filterMap
              (fun m => if selected ns now m && m.want_data then m.push_conn else none)) := by
  intro l
  induction l with
  | nil => intro amd awd h; simp
  | cons m l ih =>
    intro amd awd h
    obtain ⟨c, hc⟩ := Option.isSome_iff_exists.1 (h m (List.mem_cons_self m l))
    have hl : ∀ m2 ∈ l, m2.push_conn.isSome = true :=
      fun m2 hm => h m2 (List.mem_cons_of_mem m hm)
    simp only [List.foldl_cons]
    cases hsel : selected ns now m with
    | false =>
      rw [show lookup_step ns now (some (amd, awd)) m = some (amd, awd) from by
        simp [lookup_step, hsel]]
      rw [ih amd awd hl]
      simp [List.filterMap_cons, hsel]
    | true =>
      cases hw : m.want_data with
      | true =>
        rw [show lookup_step ns now (some (amd, awd)) m = some (amd, awd ++ [c]) from by
          simp [lookup_step, hsel, hc, hw]]
        rw [ih amd (awd ++ [c]) hl]
        simp [List.filterMap_cons, hsel, hw, hc, List.append_assoc]
      | false =>
        rw [show lookup_step ns now (some (amd, awd)) m = some (amd ++ [c], awd) from by
          simp [lookup_step, hsel, hc, hw]]
        rw [ih (amd ++ [c]) awd hl]
        simp [List.filterMap_cons, hsel, hw, hc, List.append_assoc]

/-- C5: with every entry for the account carrying a push connection, the
`send_notifies` lookup selects exactly the entries whose expiry has not passed
and whose namespace list contains the namespace of the message, partitioning their
targets by `want_data` into the with-data and metadata-only lists; an entry
covering namespaces 1, 3, 5 matches namespace 3 and not namespace 2. -/
theorem send_notifies_lookup_spec (reg : Registry) (pk : Nat) (ns : Int) (now : Nat)
    (h : ∀ m ∈ mon_entries reg pk, m.push_conn.isSome = true) :
    lookup_targets reg pk ns now =
      some ((mon_entries reg pk).filterMap
              (fun m => if selected ns now m && !m.want_data then m.push_conn else none),
            (mon_entries reg pk).filterMap
              (fun m => if selected ns now m && m.want_data then m.push_conn else none)) ∧
    (∀ m : MonData, selected ns now m = true ↔
      (now ≤ m.expiry ∧ binary_search m.namespaces ns = true)) ∧
    binary_search [1, 3, 5] 3 = true ∧ binary_search [1, 3, 5] 2 = false := by
  refine ⟨?_, ?_, by decide, by decide⟩
  · simpa using lookup_fold ns now (mon_entries reg pk) [] [] h
  · intro m
    simp [selected, Bool.and_eq_true, decide_eq_true_eq]

theorem send_notifies_lookup_spec_witness :
    (∀ m ∈ mon_entries
        [(0, ⟨[1, 3, 5], false, some 4, none, 10⟩), (0, ⟨[1, 3, 5], true, some 6, none, 10⟩)] 0,
      m.push_conn.isSome = true) ∧
    lookup_targets
        [(0, ⟨[1, 3, 5], false, some 4, none, 10⟩), (0, ⟨[1, 3, 5], true, some 6, none, 10⟩)]
        0 3 5 = some ([4], [6]) ∧
    lookup_targets
        [(0, ⟨[1, 3, 5], false, some 4, none, 10⟩), (0, ⟨[1, 3, 5], true, some 6, none, 10⟩)]
        0 2 5 = some ([], []) := by
  have h1 := send_notifies_lookup_spec
    [(0, ⟨[1, 3, 5], false, some 4, none, 10⟩), (0, ⟨[1, 3, 5], true, some 6, none, 10⟩)]
    0 3 5 (by decide)
  have h2 := send_notifies_lookup_spec
    [(0, ⟨[1, 3, 5], false, some 4, none, 10⟩), (0, ⟨[1, 3, 5], true, some 6, none, 10⟩)]
    0 2 5 (by decide)
  refine ⟨by decide, ?_, ?_⟩
  · rw [h1.1]; rfl
  · rw [h2.1]; rfl

/-- C10: `send_notifies` treats an entry whose expiry equals the lookup time
as live (the comparison is `expiry >= now`); an entry is excluded as stale
exactly when its expiry is strictly earlier than the lookup time. -/
theorem lookup_live_at_exact_expiry (pk : Nat) (ns : Int) (now : Nat) (m : MonData) (c : Nat)
    (hc : m.push_conn = some c) (hns : binary_search m.namespaces ns = true) :
    lookup_targets [(pk, m)] pk ns m.expiry =
      some (if m.want_data then ([], [c]) else ([c], [])) ∧
    (m.expiry < now → lookup_targets [(pk, m)] pk ns now = some ([], [])) ∧
    (selected ns now m = true ↔ now ≤ m.expiry) := by
  refine ⟨?_, ?_, ?_⟩
  · cases hw : m.want_data with
    | true => simp [lookup_targets, mon_entries, lookup_step, selected, hns, hc, hw]
    | false => simp [lookup_targets, mon_entries, lookup_step, selected, hns, hc, hw]
  · intro hlt
    have hdec : decide (now ≤ m.expiry) = false := by simp [Nat.not_le.2 hlt]
    simp [lookup_targets, mon_entries, lookup_step, selected, hdec]
  · simp [selected, hns]

theorem lookup_live_at_exact_expiry_witness :
    lookup_targets [(0, ⟨[3], false, some 4, none, 10⟩)] 0 3 10 = some ([4], []) ∧
    (10 < 11 → lookup_targets [(0, ⟨[3], false, some 4, none, 10⟩)] 0 3 11 = some ([], [])) ∧
    (selected 3 11 ⟨[3], false, some 4, none, 10⟩ = true ↔ 11 ≤ 10) := by
  have h := lookup_live_at_exact_expiry 0 3 11 ⟨[3], false, some 4, none, 10⟩ 4 rfl (by decide)
  exact ⟨by simpa using h.1, h.2.1, h.2.2⟩

theorem find_renew_cons_true (now ttl : Nat) (omq quic : Option Nat) (s : SubInfo)
    (k : Nat) (m : MonData) (rest : Registry)
    (hc : (k == s.pubkey && transport_match omq quic m) = true) :
    find_renew now ttl omq quic s ((k, m) :: rest) =
      some ((k, renew now ttl omq quic s m) :: rest) := by
  simp [find_renew, hc]

theorem find_renew_cons_false (now ttl : Nat) (omq quic : Option Nat) (s : SubInfo)
    (k : Nat) (m : MonData) (rest : Registry)
    (hc : (k == s.pubkey && transport_match omq quic m) = false) :
    find_renew now ttl omq quic s ((k, m) :: rest) =
      Option.map (fun r => (k, m) :: r) (find_renew now ttl omq quic s rest) := by
  cases hr : find_renew now ttl omq quic s rest <;> simp [find_renew, hc, hr]

theorem find_renew_eq_none (now ttl : Nat) (omq quic : Option Nat) (s : SubInfo) :
    ∀ reg : Registry,
    (∀ e ∈ reg, (e.1 == s.pubkey && transport_match omq quic e.2) = false) →
    find_renew now ttl omq quic s reg = none := by
  intro reg
  induction reg with
  | nil => intro h; rfl
  | cons e rest ih =>
    intro h
    obtain ⟨k, m⟩ := e
    rw [find_renew_cons_false now ttl omq quic s k m rest (h (k, m) (List.mem_cons_self _ _))]
    rw [ih fun e2 he => h e2 (List.mem_cons_of_mem _ he)]
    rfl

theorem find_renew_append (now ttl : Nat) (omq quic : Option Nat) (s : SubInfo) :
    ∀ (l1 l2 : Registry), find_renew now ttl omq quic s l1 = none →
    find_renew now ttl omq quic s (l1 ++ l2) =
      Option.map (fun r => l1 ++ r) (find_renew now ttl omq quic s l2) := by
  intro l1
  induction l1 with
  | nil =>
    intro l2 h
    cases hr : find_renew now ttl omq quic s l2 <;> simp [hr]
  | cons e rest ih =>
    intro l2 h
    obtain ⟨k, m⟩ := e
    cases hc : (k == s.pubkey && transport_match omq quic m) with
    | true =>
      rw [find_renew_cons_true now ttl omq quic s k m rest hc] at h
      exact Option.noConfusion h
    | false =>
      rw [find_renew_cons_false now ttl omq quic s k m rest hc] at h
      have hrest : find_renew now ttl omq quic s rest = none := by
        cases hr : find_renew now ttl omq quic s rest
        · rfl
        · rw [hr] at h; exact Option.noConfusion h
      rw [List.cons_append,
        find_renew_cons_false now ttl omq quic s k m (rest ++ l2) hc,
        ih l2 hrest]
      cases hr : find_renew now ttl omq quic s l2 <;> simp [hr]

theorem transport_match_self (omq quic : Option Nat) (nss : List Int) (w : Bool) (ex : Nat)
    (ht : omq.isSome = true ∨ quic.isSome = true) :
    transport_match omq quic ⟨nss, w, omq, quic, ex⟩ = true := by
  rcases ht with h | h <;> simp [transport_match, h]

theorem renew_new_entry (now1 now2 ttl : Nat) (omq quic : Option Nat) (s1 s2 : SubInfo)
    (hns : s2.namespaces = s1.namespaces) :
    renew now2 ttl omq quic s2 (new_entry now1 ttl omq quic s1) =
      ⟨s1.namespaces, s1.want_data || s2.want_data, omq, quic, now2 + ttl⟩ := by
  cases omq <;> cases quic <;>
    simp [renew, new_entry, hns, merge_namespaces_self]

theorem update_twice (now1 now2 ttl : Nat) (omq quic : Option Nat) (reg : Registry)
    (s1 s2 : SubInfo) (hk : s2.pubkey = s1.pubkey) (hns : s2.namespaces = s1.namespaces)
    (hreg : ∀ e ∈ reg, (e.1 == s1.pubkey && transport_match omq quic e.2) = false)
    (ht : omq.isSome = true ∨ quic.isSome = true) :
    update_one now2 ttl omq quic (update_one now1 ttl omq quic reg s1) s2 =
      reg ++ [(s1.pubkey,
        ⟨s1.namespaces, s1.want_data || s2.want_data, omq, quic, now2 + ttl⟩)] := by
  have h1 : find_renew now1 ttl omq quic s1 reg = none :=
    find_renew_eq_none now1 ttl omq quic s1 reg hreg
  have e1 : update_one now1 ttl omq quic reg s1 =
      reg ++ [(s1.pubkey, new_entry now1 ttl omq quic s1)] := by
    simp [update_one, h1]
  rw [e1]
  have hreg2 : ∀ e ∈ reg, (e.1 == s2.pubkey && transport_match omq quic e.2) = false := by
    simpa [hk] using hreg
  have h2 : find_renew now2 ttl omq quic s2 reg = none :=
    find_renew_eq_none now2 ttl omq quic s2 reg hreg2
  have hcond : ((s1.pubkey == s2.pubkey) &&
      transport_match omq quic (new_entry now1 ttl omq quic s1)) = true := by
    have hm : transport_match omq quic (new_entry now1 ttl omq quic s1) = true := by
      simpa [new_entry] using
        transport_match_self omq quic s1.namespaces s1.want_data (now1 + ttl) ht
    simp [hk, hm]
  have hsingle : find_renew now2 ttl omq quic s2
      [(s1.pubkey, new_entry now1 ttl omq quic s1)] =
      some [(s1.pubkey, renew now2 ttl omq quic s2 (new_entry now1 ttl omq quic s1))] :=
    find_renew_cons_true now2 ttl omq quic s2 s1.pubkey (new_entry now1 ttl omq quic s1) [] hcond
  have happ := find_renew_append now2 ttl omq quic s2 reg
    [(s1.pubkey, new_entry now1 ttl omq quic s1)] h2
  rw [hsingle] at happ
  simp [update_one, happ, renew_new_entry now1 now2 ttl omq quic s1 s2 hns]

/-- C4: two `update` calls with identical account key, transport handle and
namespaces — whether in two successive calls or in one batch — leave exactly
one registry entry for that (key, transport) pair; its namespace list is the
(idempotent) union of the two requests and its want_data flag is the logical
OR of the two requests. -/
theorem update_monitors_idempotent_renewal
    (now1 now2 ttl : Nat) (omq quic : Option Nat) (reg : Registry)
    (k : Nat) (hx1 hx2 : String) (ns : List Int) (w1 w2 : Bool)
    (hreg : ∀ e ∈ reg, (e.1 == k && transport_match omq quic e.2) = false)
    (ht : omq.isSome = true ∨ quic.isSome = true) :
    ((update_monitors now2 ttl omq quic
        (update_monitors now1 ttl omq quic reg [⟨k, hx1, ns, w1⟩]) [⟨k, hx2, ns, w2⟩]).filter
      (fun e => e.1 == k && transport_match omq quic e.2)) =
      [(k, ⟨ns, w1 || w2, omq, quic, now2 + ttl⟩)] ∧
    ((update_monitors now1 ttl omq quic reg
        [⟨k, hx1, ns, w1⟩, ⟨k, hx2, ns, w2⟩]).filter
      (fun e => e.1 == k && transport_match omq quic e.2)) =
      [(k, ⟨ns, w1 || w2, omq, quic, now1 + ttl⟩)] := by
  have hfilter : reg.filter (fun e => e.1 == k && transport_match omq quic e.2) = [] :=
    List.filter_eq_nil_iff.2 fun e he => by rw [hreg e he]; exact Bool.false_ne_true
  have hm : transport_match omq quic
      (⟨ns, w1 || w2, omq, quic, now2 + ttl⟩ : MonData) = true :=
    transport_match_self omq quic ns (w1 || w2) (now2 + ttl) ht
  have hm1 : transport_match omq quic
      (⟨ns, w1 || w2, omq, quic, now1 + ttl⟩ : MonData) = true :=
    transport_match_self omq quic ns (w1 || w2) (now1 + ttl) ht
  constructor
  · have := update_twice now1 now2 ttl omq quic reg ⟨k, hx1, ns, w1⟩ ⟨k, hx2, ns, w2⟩
      rfl rfl hreg ht
    simp only [update_monitors, List.foldl_cons, List.foldl_nil]
    rw [this, List.filter_append, hfilter]
    simp [hm]
  · have := update_twice now1 now1 ttl omq quic reg ⟨k, hx1, ns, w1⟩ ⟨k, hx2, ns, w2⟩
      rfl rfl hreg ht
    simp only [update_monitors, List.foldl_cons, List.foldl_nil]
    simp only [update_monitors, List.foldl_cons, List.foldl_nil] at this
    rw [this, List.filter_append, hfilter]
    simp [hm1]

theorem update_monitors_idempotent_renewal_witness :
    (∀ e ∈ ([] : Registry), (e.1 == 1 && transport_match (some 5) none e.2) = false) ∧
    ((update_monitors 3 10 (some 5) none
        (update_monitors 0 10 (some 5) none [] [⟨1, "k1", [2], false⟩]) [⟨1, "k1", [2], true⟩]).filter
      (fun e => e.1 == 1 && transport_match (some 5) none e.2)) =
      [(1, ⟨[2], false || true, some 5, none, 3 + 10⟩)] := by
  have h := update_monitors_idempotent_renewal 0 3 10 (some 5) none []
    1 "k1" "k1" [2] false true (by simp) (Or.inl rfl)
  exact ⟨by simp, h.1⟩

/-- C9: two `update` calls for the same account over distinct transports
(the handles supplied by the second call matching neither handle stored by the first) yield
two distinct registry entries for the account, each carrying its own
namespaces, want_data and transport handles. -/
theorem update_monitors_distinct_transports
    (now1 now2 ttl : Nat) (omq1 quic1 omq2 quic2 : Option Nat) (reg : Registry)
    (k : Nat) (hx1 hx2 : String) (ns1 ns2 : List Int) (w1 w2 : Bool)
    (hreg : ∀ e ∈ reg, (e.1 == k) = false)
    (hdist : transport_match omq2 quic2 ⟨ns1, w1, omq1, quic1, now1 + ttl⟩ = false) :
    (update_monitors now2 ttl omq2 quic2
        (update_monitors now1 ttl omq1 quic1 reg [⟨k, hx1, ns1, w1⟩]) [⟨k, hx2, ns2, w2⟩]).filter
      (fun e => e.1 == k) =
      [(k, ⟨ns1, w1, omq1, quic1, now1 + ttl⟩),
       (k, ⟨ns2, w2, omq2, quic2, now2 + ttl⟩)] := by
  have hreg1 : ∀ e ∈ reg, (e.1 == k && transport_match omq1 quic1 e.2) = false :=
    fun e he => by rw [hreg e he]; rfl
  have hreg2 : ∀ e ∈ reg, (e.1 == k && transport_match omq2 quic2 e.2) = false :=
    fun e he => by rw [hreg e he]; rfl
  have h1 : find_renew now1 ttl omq1 quic1 ⟨k, hx1, ns1, w1⟩ reg = none :=
    find_renew_eq_none now1 ttl omq1 quic1 _ reg hreg1
  have e1 : new_entry now1 ttl omq1 quic1 ⟨k, hx1, ns1, w1⟩ =
      ⟨ns1, w1, omq1, quic1, now1 + ttl⟩ := rfl
  have step1 : update_monitors now1 ttl omq1 quic1 reg [⟨k, hx1, ns1, w1⟩] =
      reg ++ [(k, ⟨ns1, w1, omq1, quic1, now1 + ttl⟩)] := by
    simp only [update_monitors, List.foldl_cons, List.foldl_nil]
    simp [update_one, h1, e1]
  have h2 : find_renew now2 ttl omq2 quic2 ⟨k, hx2, ns2, w2⟩ reg = none :=
    find_renew_eq_none now2 ttl omq2 quic2 _ reg hreg2
  have hcsingle : ((k == k) &&
      transport_match omq2 quic2 (⟨ns1, w1, omq1, quic1, now1 + ttl⟩ : MonData)) = false := by
    simp [hdist]
  have hsingle : find_renew now2 ttl omq2 quic2 ⟨k, hx2, ns2, w2⟩
      [(k, ⟨ns1, w1, omq1, quic1, now1 + ttl⟩)] = none := by
    rw [find_renew_cons_false now2 ttl omq2 quic2 _ k _ [] hcsingle]
    rfl
  have happ := find_renew_append now2 ttl omq2 quic2 ⟨k, hx2, ns2, w2⟩ reg
    [(k, ⟨ns1, w1, omq1, quic1, now1 + ttl⟩)] h2
  rw [hsingle] at happ
  have step2 : update_monitors now2 ttl omq2 quic2
      (reg ++ [(k, ⟨ns1, w1, omq1, quic1, now1 + ttl⟩)]) [⟨k, hx2, ns2, w2⟩] =
      (reg ++ [(k, ⟨ns1, w1, omq1, quic1, now1 + ttl⟩)]) ++
        [(k, ⟨ns2, w2, omq2, quic2, now2 + ttl⟩)] := by
    simp only [update_monitors, List.foldl_cons, List.foldl_nil]
    simp [update_one, happ]
    rfl
  rw [step1, step2]
  have hfilter : reg.filter (fun e => e.1 == k) = [] :=
    List.filter_eq_nil_iff.2 fun e he => by rw [hreg e he]; exact Bool.false_ne_true
  simp [List.filter_append, hfilter]

theorem update_monitors_distinct_transports_witness :
    (∀ e ∈ ([] : Registry), (e.1 == 1) = false) ∧
    transport_match (some 2) none ⟨[7], false, some 9, none, 0 + 10⟩ = false ∧
    (update_monitors 4 10 (some 2) none
        (update_monitors 0 10 (some 9) none [] [⟨1, "k1", [7], false⟩]) [⟨1, "k1", [8], true⟩]).filter
      (fun e => e.1 == 1) =
      [(1, ⟨[7], false, some 9, none, 0 + 10⟩),
       (1, ⟨[8], true, some 2, none, 4 + 10⟩)] := by
  refine ⟨by simp, by decide, ?_⟩
  exact update_monitors_distinct_transports 0 4 10 (some 9) none (some 2) none []
    1 "k1" "k1" [7] [8] false true (by simp) (by decide)

theorem handle_frame_refl (omq quic : Option Nat) (m : MonData) :
    HandleFrame omq quic m m :=
  ⟨Or.inl rfl, Or.inl rfl⟩

theorem handle_frame_trans (omq quic : Option Nat) (m1 m2 m3 : MonData)
    (h12 : HandleFrame omq quic m1 m2) (h23 : HandleFrame omq quic m2 m3) :
    HandleFrame omq quic m1 m3 := by
  obtain ⟨p12, q12⟩ := h12
  obtain ⟨p23, q23⟩ := h23
  constructor
  · rcases p12 with h | ⟨hn, hs, he⟩
    · rcases p23 with h2 | ⟨hn2, hs2, he2⟩
      · exact Or.inl (h2.trans h)
      · exact Or.inr ⟨h ▸ hn2, hs2, he2⟩
    · rcases p23 with h2 | ⟨hn2, hs2, he2⟩
      · exact Or.inr ⟨hn, hs, h2.trans he⟩
      · rw [he] at hn2
        rw [hn2] at hs
        exact absurd hs (by simp)
  · rcases q12 with h | ⟨hn, hs, he⟩
    · rcases q23 with h2 | ⟨hn2, hs2, he2⟩
      · exact Or.inl (h2.trans h)
      · exact Or.inr ⟨h ▸ hn2, hs2, he2⟩
    · rcases q23 with h2 | ⟨hn2, hs2, he2⟩
      · exact Or.inr ⟨hn, hs, h2.trans he⟩
      · rw [he] at hn2
        rw [hn2] at hs
        exact absurd hs (by simp)

theorem renew_handle_frame (now ttl : Nat) (omq quic : Option Nat) (s : SubInfo)
    (m : MonData) : HandleFrame omq quic m (renew now ttl omq quic s m) := by
  constructor
  · cases ho : omq with
    | none => left; simp [renew, ho]
    | some c =>
      cases hp : m.push_conn with
      | none => right; simp [renew, ho, hp]
      | some c2 => left; simp [renew, ho, hp]
  · cases hq : quic with
    | none => left; simp [renew, hq]
    | some c =>
      cases hp : m.quic with
      | none => right; simp [renew, hq, hp]
      | some c2 => left; simp [renew, hq, hp]

theorem find_renew_getD (now ttl : Nat) (omq quic : Option Nat) (s : SubInfo)
    (d : Nat × MonData) :
    ∀ (reg r : Registry), find_renew now ttl omq quic s reg = some r →
    r.length = reg.length ∧
    ∀ i : Nat, r.getD i d = reg.getD i d ∨
      r.getD i d = ((reg.getD i d).1, renew now ttl omq quic s (reg.getD i d).2) := by
  intro reg
  induction reg with
  | nil => intro r h; exact Option.noConfusion h
  | cons e rest ih =>
    intro r h
    obtain ⟨k, m⟩ := e
    cases hc : (k == s.pubkey && transport_match omq quic m) with
    | true =>
      rw [find_renew_cons_true now ttl omq quic s k m rest hc] at h
      obtain rfl := Option.some.inj h
      refine ⟨by simp, ?_⟩
      intro i
      cases i with
      | zero => right; rfl
      | succ j => left; rfl
    | false =>
      rw [find_renew_cons_false now ttl omq quic s k m rest hc] at h
      cases hr : find_renew now ttl omq quic s rest with
      | none => rw [hr] at h; exact Option.noConfusion h
      | some rest2 =>
        rw [hr] at h
        obtain rfl := Option.some.inj h
        obtain ⟨hlen, hpos⟩ := ih rest2 hr
        refine ⟨by simp [hlen], ?_⟩
        intro i
        cases i with
        | zero => left; rfl
        | succ j => exact hpos j

theorem update_one_length (now ttl : Nat) (omq quic : Option Nat) (reg : Registry)
    (s : SubInfo) : reg.length ≤ (update_one now ttl omq quic reg s).length := by
  cases hr : find_renew now ttl omq quic s reg with
  | none => simp [update_one, hr]
  | some r =>
    have := (find_renew_getD now ttl omq quic s (s.pubkey, new_entry now ttl omq quic s)
      reg r hr).1
    simp [update_one, hr, this]

theorem update_one_getD (now ttl : Nat) (omq quic : Option Nat) (reg : Registry)
    (s : SubInfo) (d : Nat × MonData) (i : Nat) (hi : i < reg.length) :
    (update_one now ttl omq quic reg s).getD i d = reg.getD i d ∨
    (update_one now ttl omq quic reg s).getD i d =
      ((reg.getD i d).1, renew now ttl omq quic s (reg.getD i d).2) := by
  cases hr : find_renew now ttl omq quic s reg with
  | none =>
    left
    simp only [update_one, hr]
    rw [List.getD_eq_getElem _ _ (by simp; omega), List.getD_eq_getElem _ _ hi]
    exact List.getElem_append_left hi
  | some r =>
    have h := find_renew_getD now ttl omq quic s d reg r hr
    simp only [update_one, hr]
    exact h.2 i

theorem update_monitors_length (now ttl : Nat) (omq quic : Option Nat) :
    ∀ (subs : List SubInfo) (reg : Registry),
    reg.length ≤ (update_monitors now ttl omq quic reg subs).length := by
  intro subs
  induction subs with
  | nil => intro reg; exact le_refl _
  | cons s subs ih =>
    intro reg
    calc reg.length ≤ (update_one now ttl omq quic reg s).length :=
          update_one_length now ttl omq quic reg s
      _ ≤ _ := ih (update_one now ttl omq quic reg s)

theorem update_monitors_frame_aux (now ttl : Nat) (omq quic : Option Nat)
    (d : Nat × MonData) :
    ∀ (subs : List SubInfo) (reg : Registry) (i : Nat), i < reg.length →
    HandleFrame omq quic (reg.getD i d).2
      ((update_monitors now ttl omq quic reg subs).getD i d).2 := by
  intro subs
  induction subs with
  | nil => intro reg i hi; exact handle_frame_refl omq quic _
  | cons s subs ih =>
    intro reg i hi
    have hstep := update_one_getD now ttl omq quic reg s d i hi
    have hlen : i < (update_one now ttl omq quic reg s).length :=
      lt_of_lt_of_le hi (update_one_length now ttl omq quic reg s)
    have htail := ih (update_one now ttl omq quic reg s) i hlen
    have hframe : HandleFrame omq quic (reg.getD i d).2
        ((update_one now ttl omq quic reg s).getD i d).2 := by
      rcases hstep with h | h
      · rw [h]; exact handle_frame_refl omq quic _
      · rw [h]; exact renew_handle_frame now ttl omq quic s _
    exact handle_frame_trans omq quic _ _ _ hframe htail

/-- C8: when `update` renews an entry, a transport handle already set on the
entry is never overwritten and a handle kind the entry lacks is filled in
from the handle of that kind supplied by the caller; across a whole batch, the
handles of every pre-existing entry evolve only by the fill-in rule (all requests
that do not renew an entry leave its handles unchanged). -/
theorem update_monitors_handle_frame :
    (∀ (now ttl : Nat) (omq quic : Option Nat) (s : SubInfo) (m : MonData),
      (m.push_conn.isSome = true → (renew now ttl omq quic s m).push_conn = m.push_conn) ∧
      (m.quic.isSome = true → (renew now ttl omq quic s m).quic = m.quic) ∧
      (m.push_conn = none → omq.isSome = true → (renew now ttl omq quic s m).push_conn = omq) ∧
      (m.quic = none → quic.isSome = true → (renew now ttl omq quic s m).quic = quic)) ∧
    (∀ (now ttl : Nat) (omq quic : Option Nat) (reg : Registry) (subs : List SubInfo)
      (i : Nat) (d : Nat × MonData), i < reg.length →
      HandleFrame omq quic (reg.getD i d).2
        ((update_monitors now ttl omq quic reg subs).getD i d).2) := by
  constructor
  · intro now ttl omq quic s m
    refine ⟨?_, ?_, ?_, ?_⟩
    · intro h
      obtain ⟨c, hc⟩ := Option.isSome_iff_exists.1 h
      simp [renew, hc]
    · intro h
      obtain ⟨c, hc⟩ := Option.isSome_iff_exists.1 h
      simp [renew, hc]
    · intro hn hs
      obtain ⟨c, hc⟩ := Option.isSome_iff_exists.1 hs
      simp [renew, hn, hc]
    · intro hn hs
      obtain ⟨c, hc⟩ := Option.isSome_iff_exists.1 hs
      simp [renew, hn, hc]
  · intro now ttl omq quic reg subs i d hi
    exact update_monitors_frame_aux now ttl omq quic d subs reg i hi

theorem update_monitors_handle_frame_witness :
    (renew 0 10 (some 5) none ⟨1, "k1", [2], true⟩
        ⟨[3], false, some 9, none, 4⟩).push_conn = some 9 ∧
    HandleFrame (some 5) none
      (([(1, (⟨[3], false, none, some 8, 4⟩ : MonData))].getD 0
          (0, ⟨[], false, none, none, 0⟩)).2)
      ((update_monitors 0 10 (some 5) none [(1, ⟨[3], false, none, some 8, 4⟩)]
          [⟨1, "k1", [2], true⟩]).getD 0 (0, ⟨[], false, none, none, 0⟩)).2 := by
  constructor
  · exact (update_monitors_handle_frame.1 0 10 (some 5) none
      ⟨1, "k1", [2], true⟩ ⟨[3], false, some 9, none, 4⟩).1 rfl
  · exact update_monitors_handle_frame.2 0 10 (some 5) none
      [(1, ⟨[3], false, none, some 8, 4⟩)] [⟨1, "k1", [2], true⟩] 0
      (0, ⟨[], false, none, none, 0⟩) (by decide)

/-- C2: any malformed request — not exactly one data part, shorter than two
bytes, first byte not a dict or list marker, last byte not the terminator, or
failing to parse anywhere inside (including inside one element of a list,
which makes the abstracted parse fail) — makes `handle_monitor_messages`
reply with a single BAD_ARGS error dict and leave the registry unchanged. -/
theorem handle_monitor_messages_bad_args
    (parseReq : List Char → Except Unit (String × List SubInfo))
    (now ttl conn : Nat) (reg : Registry) (data : List (List Char))
    (hbad : data.length ≠ 1 ∨ ∃ m, data = [m] ∧
        (m.length < 2 ∨ (m.head? ≠ some 'd' ∧ m.head? ≠ some 'l') ∨
         m.getLast? ≠ some 'e' ∨ parseReq m = Except.error ())) :
    (handle_monitor_messages parseReq now ttl conn reg data).2 = reg ∧
    ∃ e, (handle_monitor_messages parseReq now ttl conn reg data).1 = MonReply.badArgs e := by
  cases data with
  | nil => exact ⟨rfl, _, rfl⟩
  | cons m rest =>
    cases rest with
    | cons m2 r2 => exact ⟨rfl, _, rfl⟩
    | nil =>
      rcases hbad with h | ⟨m2, hm2, hcond⟩
      · exact absurd rfl h
      · have hm : m2 = m := by
          have := hm2
          injection this with h1 h2
          exact h1.symm
        subst hm
        by_cases hshape : 2 ≤ m2.length ∧ (m2.head? = some 'd' ∨ m2.head? = some 'l') ∧
            m2.getLast? = some 'e'
        · have hperr : parseReq m2 = Except.error () := by
            rcases hcond with h | h | h | h
            · exact absurd hshape.1 (by omega)
            · rcases hshape.2.1 with hd | hl
              · exact absurd hd h.1
              · exact absurd hl h.2
            · exact absurd hshape.2.2 h
            · exact h
          constructor
          · simp [handle_monitor_messages, if_pos hshape, hperr]
          · exact ⟨"Invalid arguments: Failed to parse monitor.messages data value",
              by simp [handle_monitor_messages, if_pos hshape, hperr]⟩
        · constructor
          · simp [handle_monitor_messages, if_neg hshape]
          · exact ⟨"Invalid arguments: monitor.messages takes a single bencoded dict or list parameter",
              by simp [handle_monitor_messages, if_neg hshape]⟩

theorem handle_monitor_messages_bad_args_witness :
    ([(['x'] : List Char)].length ≠ 1 ∨ ∃ m, [(['x'] : List Char)] = [m] ∧
        (m.length < 2 ∨ (m.head? ≠ some 'd' ∧ m.head? ≠ some 'l') ∨
         m.getLast? ≠ some 'e' ∨
         (fun _ : List Char => (Except.error () : Except Unit (String × List SubInfo))) m =
           Except.error ())) ∧
    (handle_monitor_messages (fun _ => Except.error ()) 0 10 5 [] [['x']]).2 = [] ∧
    ∃ e, (handle_monitor_messages (fun _ => Except.error ()) 0 10 5 [] [['x']]).1 =
      MonReply.badArgs e := by
  have hb : ([(['x'] : List Char)].length ≠ 1 ∨ ∃ m, [(['x'] : List Char)] = [m] ∧
      (m.length < 2 ∨ (m.head? ≠ some 'd' ∧ m.head? ≠ some 'l') ∨
       m.getLast? ≠ some 'e' ∨
       (fun _ : List Char => (Except.error () : Except Unit (String × List SubInfo))) m =
         Except.error ())) :=
    Or.inr ⟨['x'], rfl, Or.inl (by decide)⟩
  have h := handle_monitor_messages_bad_args (fun _ => Except.error ()) 0 10 5 [] [['x']] hb
  exact ⟨hb, h.1, h.2⟩

/-- C6 counterexample: the full metadata-only payload is NOT byte-identical
to the leading bytes of the with-data payload — the metadata-only payload
ends with the dict terminator, while at that byte offset the with-data
payload carries the first byte of the `~` key entry. -/
theorem notify_payload_not_literal_extension :
    ((notify_metadata_payload ['A'] ⟨['H'], 3, 5, 9, ['D']⟩).isPrefixOf
      (notify_withdata_payload ['A'] ⟨['H'], 3, 5, 9, ['D']⟩)) = false := by
  decide

/-- C6 (amended): the notification is a dict with keys in the exact order
`@`, `h`, `n`, `t`, `z`, with `~` (raw payload) appended last only in the
with-data variant; the with-data payload equals the metadata-only payload
with its final terminator byte replaced by the `~` entry and a new
terminator, so the two variants are byte-identical on everything before the
final byte of the metadata-only payload (but the full metadata-only payload,
terminator included, is not a prefix of the with-data payload). -/
theorem notify_payload_layout (pubkey : List Char) (msg : message) :
    notify_metadata_payload pubkey msg =
      'd' :: (bt_encStr ['@'] ++ bt_encStr pubkey ++ bt_encStr ['h'] ++ bt_encStr msg.hash ++
        bt_encStr ['n'] ++ bt_encInt msg.msg_namespace ++
        bt_encStr ['t'] ++ bt_encInt msg.timestamp ++
        bt_encStr ['z'] ++ bt_encInt msg.expiry) ++ ['e'] ∧
    notify_withdata_payload pubkey msg =
      (notify_metadata_payload pubkey msg).dropLast ++
        (bt_encStr ['~'] ++ bt_encStr msg.data) ++ ['e'] ∧
    (notify_metadata_payload pubkey msg).dropLast <+: notify_withdata_payload pubkey msg := by
  have hmd : notify_metadata_payload pubkey msg =
      ('d' :: (bt_encStr ['@'] ++ bt_encStr pubkey ++ bt_encStr ['h'] ++ bt_encStr msg.hash ++
        bt_encStr ['n'] ++ bt_encInt msg.msg_namespace ++
        bt_encStr ['t'] ++ bt_encInt msg.timestamp ++
        bt_encStr ['z'] ++ bt_encInt msg.expiry)) ++ ['e'] := by
    simp [notify_metadata_payload, write_metadata, bt_dict_producer.append_str,
      bt_dict_producer.append_int, bt_dict_producer.view, List.append_assoc]
  have hdl : (notify_metadata_payload pubkey msg).dropLast =
      'd' :: (bt_encStr ['@'] ++ bt_encStr pubkey ++ bt_encStr ['h'] ++ bt_encStr msg.hash ++
        bt_encStr ['n'] ++ bt_encInt msg.msg_namespace ++
        bt_encStr ['t'] ++ bt_encInt msg.timestamp ++
        bt_encStr ['z'] ++ bt_encInt msg.expiry) := by
    rw [hmd]
    exact List.dropLast_concat
  have hwd : notify_withdata_payload pubkey msg =
      ('d' :: (bt_encStr ['@'] ++ bt_encStr pubkey ++ bt_encStr ['h'] ++ bt_encStr msg.hash ++
        bt_encStr ['n'] ++ bt_encInt msg.msg_namespace ++
        bt_encStr ['t'] ++ bt_encInt msg.timestamp ++
        bt_encStr ['z'] ++ bt_encInt msg.expiry)) ++
        ((bt_encStr ['~'] ++ bt_encStr msg.data) ++ ['e']) := by
    simp [notify_withdata_payload, write_metadata, bt_dict_producer.append_str,
      bt_dict_producer.append_int, bt_dict_producer.view, List.append_assoc]
  refine ⟨by rw [hmd], ?_, ?_⟩
  · rw [hwd, hdl]
    simp [List.append_assoc]
  · rw [hwd, hdl]
    exact List.prefix_append _ _

theorem merge_namespaces_comm_idem_witness :
    List.Sorted (· < ·) [(1 : Int), 4] ∧ List.Sorted (· < ·) [(2 : Int), 3] ∧
    merge_namespaces [(1 : Int), 4] [(1 : Int), 4] = [(1 : Int), 4] ∧
    merge_namespaces [(1 : Int), 4] [2, 3] = merge_namespaces [2, 3] [(1 : Int), 4] := by
  have h1 : List.Sorted (· < ·) [(1 : Int), 4] := by decide
  have h2 : List.Sorted (· < ·) [(2 : Int), 3] := by decide
  have h := merge_namespaces_comm_idem [(1 : Int), 4] [2, 3] h1 h2
  exact ⟨h1, h2, h.1, h.2⟩

end OxenSS
